import Mathlib

/-!
Verification development for the xorm in-memory versioned object store.

Concrete model schemas (`User`, `UserModel`, `Task`, `TaskModel`) are
translated from the repository's documented model definitions
(`src/example/app/docs/models.mdx`): `toJSON` / `loadJSON` / `idSelector`
are field-for-field transcriptions of the TypeScript classes.

The store core (collections, mutation pipeline, history, sandbox) is not
part of the repository sources available here, so it is modelled from the
specification, section by section; each such definition carries a
`Modelled from the spec:` doc comment.
-/

namespace Xorm

/-- User data shape from models.mdx: `{ id: string; name: string }`. -/
structure User where
  id : String
  name : String
deriving DecidableEq, Repr

/-- Model instance state of `class UserModel` from models.mdx: observable
field `name` plus the inherited `id`. -/
structure UserModel where
  id : String
  name : String
deriving DecidableEq, Repr

/-- BaseModel.idSelector from models.mdx: `return data.id`. -/
def User.idSelector (d : User) : String := d.id

/-- UserModel.toJSON from models.mdx: `{ id: this.id, name: this.name }`. -/
def UserModel.toJSON (m : UserModel) : User :=
  { id := m.id, name := m.name }

/-- UserModel.loadJSON from models.mdx: `this.name = data.name` (the id is
not assigned). -/
def UserModel.loadJSON (m : UserModel) (d : User) : UserModel :=
  { m with name := d.name }

/-- UserModel constructor from models.mdx: `super(data)` fixes the id from
the id selector, then `this.loadJSON(data)` populates the fields (the
pre-`loadJSON` value of `name` is never observable; `""` stands for the
uninitialized field). -/
def UserModel.new (d : User) : UserModel :=
  UserModel.loadJSON { id := User.idSelector d, name := "" } d

/-- Task data shape from models.mdx. -/
structure Task where
  id : String
  title : String
  project_id : String
  creator_id : String
  assignee_id : Option String
  created_at : Nat
deriving DecidableEq, Repr

/-- Model instance state of `class TaskModel` from models.mdx. -/
structure TaskModel where
  id : String
  title : String
  projectId : String
  creatorId : String
  assigneeId : Option String
  createdAt : Nat
deriving DecidableEq, Repr

/-- TaskModel.toJSON from models.mdx. -/
def TaskModel.toJSON (t : TaskModel) : Task :=
  { id := t.id, title := t.title, project_id := t.projectId,
    creator_id := t.creatorId, assignee_id := t.assigneeId,
    created_at := t.createdAt }

/-- TaskModel.loadJSON from models.mdx: assigns every field except the id. -/
def TaskModel.loadJSON (t : TaskModel) (d : Task) : TaskModel :=
  { t with title := d.title, projectId := d.project_id,
           creatorId := d.creator_id, assigneeId := d.assignee_id,
           createdAt := d.created_at }

/-- TaskModel constructor from models.mdx: id from the selector, then
`loadJSON` populates the remaining fields. -/
def TaskModel.new (d : Task) : TaskModel :=
  TaskModel.loadJSON
    { id := d.id, title := "", projectId := "", creatorId := "",
      assigneeId := none, createdAt := 0 } d

/-- Modelled from the spec: a Model Schema (spec section 3) for the store
core, whose implementation is absent from the sources here. It packages
the identity-selector, the bare constructor, serialize and
deserialize/merge, together with the laws section 4.2 requires of every
schema (deserialize never touches the identity; serialize is a left
inverse of deserialize on matching identities). -/
structure Schema (Data Inst : Type) where
  idSelector : Data → String
  blank : String → Inst
  serialize : Inst → Data
  deserialize : Inst → Data → Inst
  instId : Inst → String
  instId_blank : ∀ i, instId (blank i) = i
  instId_deserialize : ∀ m d, instId (deserialize m d) = instId m
  serialize_deserialize :
    ∀ m d, instId m = idSelector d → serialize (deserialize m d) = d

/-- The concrete schema of `UserModel`, assembled from the source
operations above; the schema laws hold definitionally for it. -/
def userSchema : Schema User UserModel where
  idSelector := User.idSelector
  blank := fun i => { id := i, name := "" }
  serialize := UserModel.toJSON
  deserialize := UserModel.loadJSON
  instId := UserModel.id
  instId_blank := fun _ => rfl
  instId_deserialize := fun _ _ => rfl
  serialize_deserialize := by
    intro m d h
    cases d
    simp only [UserModel.toJSON, UserModel.loadJSON, User.idSelector] at *
    simp [h]

/-- Modelled from the spec: a Model Instance as held by a collection — the
mutable record plus an allocation token `ref` standing for the object's
identity (two store states talk about "the same instance" exactly when the
`ref` agrees). -/
structure Obj (Inst : Type) where
  ref : Nat
  val : Inst
deriving DecidableEq, Repr

/-- Modelled from the spec: the full serialized state of one instant — a
mapping from model-type name to the ordered serialized instances
(spec section 6), without the version tag. -/
abbrev Snap (Data : Type) : Type := List (String × List Data)

/-- Modelled from the spec: the full-store serialization format of
spec section 6 — the collection map plus the `schemaVersion` tag. -/
structure Serialized (Data : Type) where
  schemaVersion : Nat
  collections : Snap Data
deriving DecidableEq, Repr

/-- Modelled from the spec: the Store (spec section 3) — all collections,
the ref allocator, the history stacks, the version tag, the sandbox
suppression flag and a count of change notifications emitted to the
external collaborator. -/
structure Store (Data Inst : Type) where
  colls : List (String × List (Obj Inst))
  nextRef : Nat
  undoStack : List (Snap Data)
  redoStack : List (Snap Data)
  schemaVersion : Nat
  inSandbox : Bool
  notifyCount : Nat
deriving DecidableEq, Repr

variable {Data Inst : Type}

/-- Modelled from the spec: identity-map lookup inside one collection. -/
def findById (σ : Schema Data Inst) (coll : List (Obj Inst)) (id : String) :
    Option (Obj Inst) :=
  coll.find? (fun e => σ.instId e.val == id)

/-- Modelled from the spec: the create/merge mutation pipeline of
spec section 4.1 — compute the id; if an instance exists, deserialize the
new data into that same instance; otherwise construct a fresh instance and
append it. Returns the new collection, the next free ref, and the
returned instance. -/
def collCreate (σ : Schema Data Inst) (coll : List (Obj Inst)) (next : Nat)
    (d : Data) : List (Obj Inst) × Nat × Obj Inst :=
  let id := σ.idSelector d
  match findById σ coll id with
  | some e =>
      (coll.map (fun x =>
        if σ.instId x.val == id then ⟨x.ref, σ.deserialize x.val d⟩ else x),
       next, ⟨e.ref, σ.deserialize e.val d⟩)
  | none =>
      let e : Obj Inst := ⟨next, σ.deserialize (σ.blank id) d⟩
      (coll ++ [e], next + 1, e)

/-- Modelled from the spec: point-wise serialization of the whole store
(spec section 4.2), in insertion order. -/
def snapOf (σ : Schema Data Inst) (s : Store Data Inst) : Snap Data :=
  s.colls.map (fun p => (p.1, p.2.map (fun e => σ.serialize e.val)))

/-- Modelled from the spec: the full serialization including the
schema-version tag (spec section 6). -/
def Store.toJSON (σ : Schema Data Inst) (s : Store Data Inst) :
    Serialized Data :=
  ⟨s.schemaVersion, snapOf σ s⟩

/-- Modelled from the spec: the single mutation-completion hook — informs
the external change-notification collaborator unless inside a suppressed
sandbox (spec sections 4.1, 4.4). -/
def notify (s : Store Data Inst) : Store Data Inst :=
  if s.inSandbox then s else { s with notifyCount := s.notifyCount + 1 }

/-- Modelled from the spec: replace one collection's contents in the
store's collection map. -/
def setColl (colls : List (String × List (Obj Inst))) (name : String)
    (c : List (Obj Inst)) : List (String × List (Obj Inst)) :=
  colls.map (fun p => if p.1 == name then (p.1, c) else p)

/-- Modelled from the spec: the error kinds of spec section 7 that store
operations raise. -/
inductive StoreError where
  | unknownModelType
  | invalidIdentity
deriving DecidableEq, Repr

/-- Modelled from the spec: store-level create — fails with
`unknownModelType` for an unregistered model name (spec section 7), fails
with `invalidIdentity` on an empty id before any mutation, and otherwise
runs the merge pipeline and routes through the notification hook. -/
def Store.create (σ : Schema Data Inst) (s : Store Data Inst)
    (model : String) (d : Data) :
    Except StoreError (Store Data Inst × Obj Inst) :=
  match s.colls.lookup model with
  | none => .error .unknownModelType
  | some coll =>
      if σ.idSelector d = "" then .error .invalidIdentity
      else
        let r := collCreate σ coll s.nextRef d
        .ok (notify { s with colls := setColl s.colls model r.1,
                             nextRef := r.2.1 }, r.2.2)

/-- Modelled from the spec: store-level delete — `unknownModelType` for an
unregistered name; removing an absent id is a no-op, removing a present
one filters it out and notifies (spec section 4.1). -/
def Store.delete (σ : Schema Data Inst) (s : Store Data Inst)
    (model : String) (id : String) : Except StoreError (Store Data Inst) :=
  match s.colls.lookup model with
  | none => .error .unknownModelType
  | some coll =>
      match findById σ coll id with
      | none => .ok s
      | some _ =>
          .ok (notify { s with
                        colls := setColl s.colls model
                          (coll.filter (fun e => !(σ.instId e.val == id))) })

/-- Modelled from the spec: store-level getById — `unknownModelType` for an
unregistered name, otherwise the instance or a not-found indicator
(spec section 4.1 — never throws for a missing id). -/
def Store.getById (σ : Schema Data Inst) (s : Store Data Inst)
    (model : String) (id : String) :
    Except StoreError (Option (Obj Inst)) :=
  match s.colls.lookup model with
  | none => .error .unknownModelType
  | some coll => .ok (findById σ coll id)

/-- Modelled from the spec: store-level getAll — `unknownModelType` for an
unregistered name, otherwise all instances in insertion order. -/
def Store.getAll (s : Store Data Inst) (model : String) :
    Except StoreError (List (Obj Inst)) :=
  match s.colls.lookup model with
  | none => .error .unknownModelType
  | some coll => .ok coll

/-- Modelled from the spec: restore one collection to one snapshot entry
(spec section 4.3) — every datum present in the snapshot is created-or-
merged, reusing the existing instance (same `ref`) where the id still
exists and allocating a fresh ref otherwise; instances absent from the
snapshot are dropped. -/
def restoreColl (σ : Schema Data Inst) (old : List (Obj Inst)) :
    List Data → Nat → List (Obj Inst) × Nat
  | [], n => ([], n)
  | d :: rest, n =>
      match findById σ old (σ.idSelector d) with
      | some e =>
          let r := restoreColl σ old rest n
          (⟨e.ref, σ.deserialize e.val d⟩ :: r.1, r.2)
      | none =>
          let r := restoreColl σ old rest (n + 1)
          (⟨n, σ.deserialize (σ.blank (σ.idSelector d)) d⟩ :: r.1, r.2)

/-- Modelled from the spec: restore all collections of a snapshot,
threading the ref allocator. -/
def restoreColls (σ : Schema Data Inst)
    (old : List (String × List (Obj Inst))) :
    Snap Data → Nat → List (String × List (Obj Inst)) × Nat
  | [], n => ([], n)
  | (name, ds) :: rest, n =>
      let c := restoreColl σ ((old.lookup name).getD []) ds n
      let cs := restoreColls σ old rest c.2
      ((name, c.1) :: cs.1, cs.2)

/-- Modelled from the spec: restore the store to a snapshot
(spec section 4.3) — replace every collection's contents to match the
snapshot, with merge semantics for surviving ids. Emits no notification
itself; history operations notify once after the restore completes. -/
def restore (σ : Schema Data Inst) (s : Store Data Inst) (snap : Snap Data) :
    Store Data Inst :=
  let r := restoreColls σ s.colls snap s.nextRef
  { s with colls := r.1, nextRef := r.2 }

/-- Modelled from the spec: History.commit (spec section 4.3) — push the
current full snapshot onto the undo stack and clear the redo stack. -/
def Store.commit (σ : Schema Data Inst) (s : Store Data Inst) :
    Store Data Inst :=
  { s with undoStack := snapOf σ s :: s.undoStack, redoStack := [] }

/-- Modelled from the spec: History.undo (spec section 4.3) — no-op on an
empty undo stack; otherwise push the current snapshot onto the redo stack,
pop the undo stack, restore to the popped snapshot and fire exactly one
change notification. -/
def Store.undo (σ : Schema Data Inst) (s : Store Data Inst) :
    Store Data Inst :=
  match s.undoStack with
  | [] => s
  | u :: rest =>
      let t := restore σ s u
      { t with undoStack := rest, redoStack := snapOf σ s :: s.redoStack,
               notifyCount := t.notifyCount + 1 }

/-- Modelled from the spec: History.redo (spec section 4.3) — symmetric to
undo. -/
def Store.redo (σ : Schema Data Inst) (s : Store Data Inst) :
    Store Data Inst :=
  match s.redoStack with
  | [] => s
  | r :: rest =>
      let t := restore σ s r
      { t with undoStack := snapOf σ s :: s.undoStack, redoStack := rest,
               notifyCount := t.notifyCount + 1 }

/-- Modelled from the spec: one observable action a sandbox callback can
take against the store — a create, a delete, a call to the context's
`commit()`, or raising an error. Any run of a callback induces such a
trace of the actions it actually performed. -/
inductive Step (Data : Type) where
  | create (model : String) (d : Data)
  | delete (model : String) (id : String)
  | commit
  | raiseErr
deriving DecidableEq, Repr

/-- Modelled from the spec: an error escaping the sandbox callback —
either a store error raised by an operation inside the callback, or an
error the callback raised itself. -/
inductive RunError where
  | fromStore (e : StoreError)
  | userRaise
deriving DecidableEq, Repr

/-- Modelled from the spec: run the sandbox callback's action trace
synchronously to completion or to its first error, tracking whether the
context's `commit()` was called (spec section 4.4 step 3). -/
def runSteps (σ : Schema Data Inst) :
    Store Data Inst → Bool → List (Step Data) →
    Store Data Inst × Bool × Option RunError
  | s, c, [] => (s, c, none)
  | s, c, Step.create m d :: rest =>
      match Store.create σ s m d with
      | .ok r => runSteps σ r.1 c rest
      | .error e => (s, c, some (.fromStore e))
  | s, c, Step.delete m i :: rest =>
      match Store.delete σ s m i with
      | .ok s' => runSteps σ s' c rest
      | .error e => (s, c, some (.fromStore e))
  | s, _, Step.commit :: rest => runSteps σ s true rest
  | s, c, Step.raiseErr :: _ => (s, c, some .userRaise)

/-- Modelled from the spec: the observable outcome of a sandbox call. -/
inductive SandboxResult where
  | ok
  | reentrant
  | raised (e : RunError)
deriving DecidableEq, Repr

/-- Modelled from the spec: the sandbox transaction (spec section 4.4) —
fail fast on re-entry; capture snapshot S0; run the callback with outward
notifications suppressed; afterwards keep the mutations and notify once if
`commit()` was called, restore to S0 silently if it was not, and on a
callback error restore to S0 silently and re-raise. -/
def Store.sandbox (σ : Schema Data Inst) (s : Store Data Inst)
    (prog : List (Step Data)) : Store Data Inst × SandboxResult :=
  if s.inSandbox then (s, .reentrant)
  else
    let s0 := snapOf σ s
    let r := runSteps σ { s with inSandbox := true } false prog
    match r.2.2 with
    | some e => ({ restore σ r.1 s0 with inSandbox := false }, .raised e)
    | none =>
        if r.2.1 then
          ({ r.1 with inSandbox := false,
                      notifyCount := r.1.notifyCount + 1 }, .ok)
        else
          ({ restore σ r.1 s0 with inSandbox := false }, .ok)

/-- Iterated undo: apply `Store.undo` n times. -/
def undoN (σ : Schema Data Inst) : Nat → Store Data Inst → Store Data Inst
  | 0, s => s
  | n + 1, s => undoN σ n (Store.undo σ s)

/-- Iterated redo: apply `Store.redo` n times. -/
def redoN (σ : Schema Data Inst) : Nat → Store Data Inst → Store Data Inst
  | 0, s => s
  | n + 1, s => redoN σ n (Store.redo σ s)

/-- Fold a sequence of create calls through the mutation pipeline of one
collection, threading the ref allocator. -/
def createAll (σ : Schema Data Inst) :
    List (Obj Inst) → Nat → List Data → List (Obj Inst) × Nat
  | coll, next, [] => (coll, next)
  | coll, next, d :: rest =>
      let r := collCreate σ coll next d
      createAll σ r.1 r.2.1 rest

/-- The last datum of a create sequence whose id selector yields `k`. -/
def lastFor (σ : Schema Data Inst) (k : String) (ds : List Data) :
    Option Data :=
  (ds.filter (fun d => σ.idSelector d == k)).getLast?

/-- Every ref held by an instance in the store is below the allocator:
the freshness invariant every reachable store satisfies. -/
def refsBelow (s : Store Data Inst) : Prop :=
  ∀ p ∈ s.colls, ∀ e ∈ p.2, e.ref < s.nextRef

/-- Within one collection, the ref determines the instance: no two
distinct instances share a ref. -/
def refsInj (coll : List (Obj Inst)) : Prop :=
  ∀ a ∈ coll, ∀ b ∈ coll, a.ref = b.ref → a = b

/-- A store as built by `new Store({ schemaVersion: 0, models: ... })`
with a single registered `UserModel` collection. -/
def store0 : Store User UserModel :=
  { colls := [("UserModel", [])], nextRef := 0, undoStack := [],
    redoStack := [], schemaVersion := 0, inSandbox := false,
    notifyCount := 0 }

/-- Run a create against the user store, keeping the store unchanged if
the call raised (convenience for building concrete example stores). -/
def createU (s : Store User UserModel) (d : User) : Store User UserModel :=
  match Store.create userSchema s "UserModel" d with
  | .ok r => r.1
  | .error _ => s

/-- A concrete store exercising the history example of store.mdx:
commit, create user-1, commit, create user-2, commit. -/
def demoStore : Store User UserModel :=
  Store.commit userSchema
    (createU
      (Store.commit userSchema
        (createU (Store.commit userSchema store0)
          { id := "user-1", name := "Austin" }))
      { id := "user-2", name := "Maxime" })

/-- A concrete one-instance user collection (ref 0, id user-1). -/
def wColl : List (Obj UserModel) :=
  [⟨0, { id := "user-1", name := "A" }⟩]

/-- A concrete store holding `wColl` whose undo stack carries one snapshot
that updates user-1's name, for exercising restore-with-merge. -/
def wStore : Store User UserModel :=
  { colls := [("UserModel", wColl)], nextRef := 1,
    undoStack := [[("UserModel", [{ id := "user-1", name := "B" }])]],
    redoStack := [], schemaVersion := 0, inSandbox := false,
    notifyCount := 0 }

/-- A concrete sandbox callback trace: one create, then `commit()`. -/
def wProg : List (Step User) :=
  [Step.create "UserModel" { id := "x", name := "y" }, Step.commit]

/-- The store state `wProg`'s create produces inside the sandbox entered
from `store0`. -/
def wT : Store User UserModel :=
  { colls := [("UserModel", [⟨0, { id := "x", name := "y" }⟩])],
    nextRef := 1, undoStack := [], redoStack := [], schemaVersion := 0,
    inSandbox := true, notifyCount := 0 }

/-! Basic lemmas about restore. -/

theorem restore_undoStack (σ : Schema Data Inst) (s : Store Data Inst)
    (snap : Snap Data) : (restore σ s snap).undoStack = s.undoStack := rfl

theorem restore_redoStack (σ : Schema Data Inst) (s : Store Data Inst)
    (snap : Snap Data) : (restore σ s snap).redoStack = s.redoStack := rfl

theorem restore_schemaVersion (σ : Schema Data Inst) (s : Store Data Inst)
    (snap : Snap Data) : (restore σ s snap).schemaVersion = s.schemaVersion :=
  rfl

theorem restore_inSandbox (σ : Schema Data Inst) (s : Store Data Inst)
    (snap : Snap Data) : (restore σ s snap).inSandbox = s.inSandbox := rfl

theorem restore_notifyCount (σ : Schema Data Inst) (s : Store Data Inst)
    (snap : Snap Data) : (restore σ s snap).notifyCount = s.notifyCount := rfl

theorem findById_id (σ : Schema Data Inst) (coll : List (Obj Inst))
    (id : String) (e : Obj Inst) (h : findById σ coll id = some e) :
    σ.instId e.val = id := by
  unfold findById at h
  have hp := List.find?_some h
  exact eq_of_beq hp

theorem restoreColl_serialize (σ : Schema Data Inst) (old : List (Obj Inst))
    (ds : List Data) : ∀ n : Nat,
    ((restoreColl σ old ds n).1).map (fun e => σ.serialize e.val) = ds := by
  induction ds with
  | nil => intro n; simp [restoreColl]
  | cons d rest ih =>
      intro n
      cases h : findById σ old (σ.idSelector d) with
      | some e =>
          have hid := findById_id σ old (σ.idSelector d) e h
          simp [restoreColl, h, ih, σ.serialize_deserialize _ _ hid]
      | none =>
          have hid : σ.instId (σ.blank (σ.idSelector d)) = σ.idSelector d :=
            σ.instId_blank _
          simp [restoreColl, h, ih, σ.serialize_deserialize _ _ hid]

theorem restoreColls_serialize (σ : Schema Data Inst)
    (old : List (String × List (Obj Inst))) (snap : Snap Data) : ∀ n : Nat,
    ((restoreColls σ old snap n).1).map
      (fun p => (p.1, p.2.map (fun e => σ.serialize e.val))) = snap := by
  induction snap with
  | nil => intro n; simp [restoreColls]
  | cons p rest ih =>
      intro n
      cases p with
      | mk name ds => simp [restoreColls, restoreColl_serialize, ih]

theorem snapOf_restore (σ : Schema Data Inst) (s : Store Data Inst)
    (snap : Snap Data) : snapOf σ (restore σ s snap) = snap := by
  simp [snapOf, restore, restoreColls_serialize]

/-! Lemmas about the mutation operations used inside a sandbox run. -/

theorem create_ok_fields (σ : Schema Data Inst) (s : Store Data Inst)
    (m : String) (d : Data) (r : Store Data Inst × Obj Inst)
    (h : Store.create σ s m d = .ok r) :
    r.1.inSandbox = s.inSandbox ∧ r.1.undoStack = s.undoStack ∧
    r.1.redoStack = s.redoStack ∧ r.1.schemaVersion = s.schemaVersion ∧
    (s.inSandbox = true → r.1.notifyCount = s.notifyCount) := by
  unfold Store.create at h
  cases hl : s.colls.lookup m with
  | none => rw [hl] at h; exact absurd h (by simp)
  | some coll =>
      rw [hl] at h
      by_cases hid : σ.idSelector d = ""
      · simp [hid] at h
      · simp only [hid, if_neg, ite_false] at h
        have hr : r.1 = notify { s with
            colls := setColl s.colls m (collCreate σ coll s.nextRef d).1,
            nextRef := (collCreate σ coll s.nextRef d).2.1 } := by
          cases h; rfl
        rw [hr]
        unfold notify
        by_cases hs : s.inSandbox
        · simp [hs]
        · simp [hs]

theorem delete_ok_fields (σ : Schema Data Inst) (s : Store Data Inst)
    (m : String) (i : String) (t : Store Data Inst)
    (h : Store.delete σ s m i = .ok t) :
    t.inSandbox = s.inSandbox ∧ t.undoStack = s.undoStack ∧
    t.redoStack = s.redoStack ∧ t.schemaVersion = s.schemaVersion ∧
    (s.inSandbox = true → t.notifyCount = s.notifyCount) := by
  unfold Store.delete at h
  cases hl : s.colls.lookup m with
  | none => rw [hl] at h; exact absurd h (by simp)
  | some coll =>
      simp only [hl] at h
      cases hf : findById σ coll i with
      | none =>
          simp only [hf] at h
          have ht : t = s := by cases h; rfl
          simp [ht]
      | some e =>
          simp only [hf] at h
          have ht : t = notify { s with
              colls := setColl s.colls m
                (coll.filter (fun e => !(σ.instId e.val == i))) } := by
            cases h; rfl
          rw [ht]
          unfold notify
          by_cases hs : s.inSandbox
          · simp [hs]
          · simp [hs]

theorem runSteps_fields (σ : Schema Data Inst) (prog : List (Step Data)) :
    ∀ (s : Store Data Inst) (c : Bool), s.inSandbox = true →
      (runSteps σ s c prog).1.inSandbox = true ∧
      (runSteps σ s c prog).1.notifyCount = s.notifyCount ∧
      (runSteps σ s c prog).1.undoStack = s.undoStack ∧
      (runSteps σ s c prog).1.redoStack = s.redoStack ∧
      (runSteps σ s c prog).1.schemaVersion = s.schemaVersion := by
  induction prog with
  | nil => intro s c hs; simp [runSteps, hs]
  | cons st rest ih =>
      intro s c hs
      cases st with
      | create m d =>
          cases h : Store.create σ s m d with
          | ok r =>
              have hf := create_ok_fields σ s m d r h
              have hrec := ih r.1 c (by rw [hf.1]; exact hs)
              simp only [runSteps, h]
              exact ⟨hrec.1,
                by rw [hrec.2.1]; exact hf.2.2.2.2 hs,
                by rw [hrec.2.2.1]; exact hf.2.1,
                by rw [hrec.2.2.2.1]; exact hf.2.2.1,
                by rw [hrec.2.2.2.2]; exact hf.2.2.2.1⟩
          | error e => simp [runSteps, h, hs]
      | delete m i =>
          cases h : Store.delete σ s m i with
          | ok t =>
              have hf := delete_ok_fields σ s m i t h
              have hrec := ih t c (by rw [hf.1]; exact hs)
              simp only [runSteps, h]
              exact ⟨hrec.1,
                by rw [hrec.2.1]; exact hf.2.2.2.2 hs,
                by rw [hrec.2.2.1]; exact hf.2.1,
                by rw [hrec.2.2.2.1]; exact hf.2.2.1,
                by rw [hrec.2.2.2.2]; exact hf.2.2.2.1⟩
          | error e => simp [runSteps, h, hs]
      | commit => simpa [runSteps] using ih s true hs
      | raiseErr => simp [runSteps, hs]

theorem runSteps_no_commit (σ : Schema Data Inst) (prog : List (Step Data))
    (hnc : ∀ st ∈ prog, st ≠ Step.commit) :
    ∀ (s : Store Data Inst) (c : Bool), (runSteps σ s c prog).2.1 = c := by
  induction prog with
  | nil => intro s c; simp [runSteps]
  | cons st rest ih =>
      intro s c
      have hrest : ∀ st ∈ rest, st ≠ Step.commit := by
        intro x hx; exact hnc x (List.mem_cons_of_mem _ hx)
      cases st with
      | create m d =>
          cases h : Store.create σ s m d with
          | ok r => simp only [runSteps, h]; exact ih hrest r.1 c
          | error e => simp [runSteps, h]
      | delete m i =>
          cases h : Store.delete σ s m i with
          | ok t => simp only [runSteps, h]; exact ih hrest t c
          | error e => simp [runSteps, h]
      | commit => exact absurd rfl (hnc Step.commit (List.mem_cons_self _ _))
      | raiseErr => simp [runSteps]

theorem toJSON_eq (σ : Schema Data Inst) (s t : Store Data Inst)
    (h1 : s.schemaVersion = t.schemaVersion)
    (h2 : snapOf σ s = snapOf σ t) :
    Store.toJSON σ s = Store.toJSON σ t := by
  unfold Store.toJSON
  rw [h1, h2]

theorem sandbox_shape_err (σ : Schema Data Inst) (s : Store Data Inst)
    (prog : List (Step Data)) (t : Store Data Inst) (c : Bool) (e : RunError)
    (h0 : s.inSandbox = false)
    (hrun : runSteps σ { s with inSandbox := true } false prog =
      (t, c, some e)) :
    Store.sandbox σ s prog =
      ({ restore σ t (snapOf σ s) with inSandbox := false },
       SandboxResult.raised e) := by
  simp [Store.sandbox, h0, hrun]

theorem sandbox_shape_commit (σ : Schema Data Inst) (s : Store Data Inst)
    (prog : List (Step Data)) (t : Store Data Inst) (h0 : s.inSandbox = false)
    (hrun : runSteps σ { s with inSandbox := true } false prog =
      (t, true, none)) :
    Store.sandbox σ s prog =
      ({ t with inSandbox := false, notifyCount := t.notifyCount + 1 },
       SandboxResult.ok) := by
  simp [Store.sandbox, h0, hrun]

theorem sandbox_shape_revert (σ : Schema Data Inst) (s : Store Data Inst)
    (prog : List (Step Data)) (t : Store Data Inst) (h0 : s.inSandbox = false)
    (hrun : runSteps σ { s with inSandbox := true } false prog =
      (t, false, none)) :
    Store.sandbox σ s prog =
      ({ restore σ t (snapOf σ s) with inSandbox := false },
       SandboxResult.ok) := by
  simp [Store.sandbox, h0, hrun]

/-- C2: for every sandbox callback that never calls the context's
`commit()`, the store's full serialized state after `sandbox` returns
equals the state immediately before the call, whatever mutations the
callback performed inside, and no change notification is emitted for the
block. -/
theorem sandbox_default_revert (σ : Schema Data Inst) (s : Store Data Inst)
    (prog : List (Step Data)) (h0 : s.inSandbox = false)
    (hnc : ∀ st ∈ prog, st ≠ Step.commit) :
    Store.toJSON σ (Store.sandbox σ s prog).1 = Store.toJSON σ s ∧
    (Store.sandbox σ s prog).1.notifyCount = s.notifyCount := by
  rcases hrun : runSteps σ { s with inSandbox := true } false prog with
    ⟨t, c, err⟩
  have hf := runSteps_fields σ prog { s with inSandbox := true } false rfl
  rw [hrun] at hf
  have hc := runSteps_no_commit σ prog hnc { s with inSandbox := true } false
  rw [hrun] at hc
  simp only at hc hf
  subst hc
  cases err with
  | some e =>
      rw [sandbox_shape_err σ s prog t false e h0 hrun]
      refine ⟨toJSON_eq σ _ _ ?_ ?_, ?_⟩
      · exact hf.2.2.2.2
      · exact snapOf_restore σ t (snapOf σ s)
      · exact hf.2.1
  | none =>
      rw [sandbox_shape_revert σ s prog t h0 hrun]
      refine ⟨toJSON_eq σ _ _ ?_ ?_, ?_⟩
      · exact hf.2.2.2.2
      · exact snapOf_restore σ t (snapOf σ s)
      · exact hf.2.1

/-- C3: for every sandbox callback run that raises an error partway
through its mutations, the core restores the store to the pre-sandbox
snapshot (full serialized state equals the pre-sandbox state), suppresses
change notification, and re-raises the original error to the caller. -/
theorem sandbox_error_rollback (σ : Schema Data Inst) (s : Store Data Inst)
    (prog : List (Step Data)) (e : RunError) (h0 : s.inSandbox = false)
    (herr : (runSteps σ { s with inSandbox := true } false prog).2.2 =
      some e) :
    Store.toJSON σ (Store.sandbox σ s prog).1 = Store.toJSON σ s ∧
    (Store.sandbox σ s prog).1.notifyCount = s.notifyCount ∧
    (Store.sandbox σ s prog).2 = SandboxResult.raised e := by
  rcases hrun : runSteps σ { s with inSandbox := true } false prog with
    ⟨t, c, err⟩
  have hf := runSteps_fields σ prog { s with inSandbox := true } false rfl
  rw [hrun] at hf
  rw [hrun] at herr
  simp only at herr hf
  subst herr
  rw [sandbox_shape_err σ s prog t c e h0 hrun]
  refine ⟨toJSON_eq σ _ _ ?_ ?_, ?_, rfl⟩
  · exact hf.2.2.2.2
  · exact snapOf_restore σ t (snapOf σ s)
  · exact hf.2.1

/-- C5: for every sandbox callback that calls the context's `commit()`
during a run that completes without error, the mutations performed inside
remain in the store's state after `sandbox` returns, and exactly one
change notification fires for the whole block. -/
theorem sandbox_commit_persists (σ : Schema Data Inst) (s : Store Data Inst)
    (prog : List (Step Data)) (t : Store Data Inst) (h0 : s.inSandbox = false)
    (hrun : runSteps σ { s with inSandbox := true } false prog =
      (t, true, none)) :
    snapOf σ (Store.sandbox σ s prog).1 = snapOf σ t ∧
    (Store.sandbox σ s prog).1.notifyCount = s.notifyCount + 1 ∧
    (Store.sandbox σ s prog).2 = SandboxResult.ok := by
  have hf := runSteps_fields σ prog { s with inSandbox := true } false rfl
  rw [hrun] at hf
  simp only at hf
  rw [sandbox_shape_commit σ s prog t h0 hrun]
  refine ⟨rfl, ?_, rfl⟩
  show t.notifyCount + 1 = s.notifyCount + 1
  rw [hf.2.1]

/-! History lemmas. -/

theorem undo_shape (σ : Schema Data Inst) (s : Store Data Inst)
    (u : Snap Data) (rest : List (Snap Data)) (h : s.undoStack = u :: rest) :
    Store.undo σ s = { restore σ s u with
      undoStack := rest, redoStack := snapOf σ s :: s.redoStack,
      notifyCount := (restore σ s u).notifyCount + 1 } := by
  unfold Store.undo
  rw [h]

theorem redo_shape (σ : Schema Data Inst) (s : Store Data Inst)
    (r : Snap Data) (rest : List (Snap Data)) (h : s.redoStack = r :: rest) :
    Store.redo σ s = { restore σ s r with
      undoStack := snapOf σ s :: s.undoStack, redoStack := rest,
      notifyCount := (restore σ s r).notifyCount + 1 } := by
  unfold Store.redo
  rw [h]

theorem redoN_succ_outer (σ : Schema Data Inst) :
    ∀ (n : Nat) (s : Store Data Inst),
      redoN σ (n + 1) s = Store.redo σ (redoN σ n s) := by
  intro n
  induction n with
  | zero => intro s; rfl
  | succ n ih =>
      intro s
      show redoN σ (n + 1) (Store.redo σ s) = _
      rw [ih (Store.redo σ s)]
      rfl

theorem undo_redo_aux (σ : Schema Data Inst) :
    ∀ (n : Nat) (s : Store Data Inst), n ≤ s.undoStack.length →
      snapOf σ (redoN σ n (undoN σ n s)) = snapOf σ s ∧
      (redoN σ n (undoN σ n s)).undoStack = s.undoStack ∧
      (redoN σ n (undoN σ n s)).redoStack = s.redoStack ∧
      (redoN σ n (undoN σ n s)).schemaVersion = s.schemaVersion := by
  intro n
  induction n with
  | zero => intro s _; exact ⟨rfl, rfl, rfl, rfl⟩
  | succ n ih =>
      intro s h
      cases hu : s.undoStack with
      | nil => rw [hu] at h; exact absurd h (by simp)
      | cons u rest =>
          have hlen : n ≤ (Store.undo σ s).undoStack.length := by
            rw [undo_shape σ s u rest hu]
            have hh : n + 1 ≤ rest.length + 1 := by
              rw [hu] at h; simpa using h
            exact Nat.le_of_succ_le_succ hh
          have IH := ih (Store.undo σ s) hlen
          have hs1u : (Store.undo σ s).undoStack = rest := by
            rw [undo_shape σ s u rest hu]
          have hs1r : (Store.undo σ s).redoStack =
              snapOf σ s :: s.redoStack := by
            rw [undo_shape σ s u rest hu]
          have hs1snap : snapOf σ (Store.undo σ s) = u := by
            rw [undo_shape σ s u rest hu]
            exact snapOf_restore σ s u
          have hs1v : (Store.undo σ s).schemaVersion = s.schemaVersion := by
            rw [undo_shape σ s u rest hu]
            rfl
          have hstep : undoN σ (n + 1) s = undoN σ n (Store.undo σ s) := rfl
          have hcomm : redoN σ (n + 1) (undoN σ n (Store.undo σ s)) =
              Store.redo σ (redoN σ n (undoN σ n (Store.undo σ s))) :=
            redoN_succ_outer σ n _
          rw [hstep, hcomm]
          have h1 : snapOf σ (redoN σ n (undoN σ n (Store.undo σ s))) = u := by
            rw [IH.1, hs1snap]
          have h2 : (redoN σ n (undoN σ n (Store.undo σ s))).undoStack =
              rest := by
            rw [IH.2.1, hs1u]
          have h3 : (redoN σ n (undoN σ n (Store.undo σ s))).redoStack =
              snapOf σ s :: s.redoStack := by
            rw [IH.2.2.1, hs1r]
          have h4 : (redoN σ n (undoN σ n (Store.undo σ s))).schemaVersion =
              s.schemaVersion := by
            rw [IH.2.2.2, hs1v]
          rw [redo_shape σ _ (snapOf σ s) s.redoStack h3]
          refine ⟨?_, ?_, rfl, ?_⟩
          · exact snapOf_restore σ _ (snapOf σ s)
          · show snapOf σ (redoN σ n (undoN σ n (Store.undo σ s))) ::
                (redoN σ n (undoN σ n (Store.undo σ s))).undoStack =
              u :: rest
            rw [h1, h2]
          · show (restore σ (redoN σ n (undoN σ n (Store.undo σ s)))
                (snapOf σ s)).schemaVersion = s.schemaVersion
            rw [restore_schemaVersion]
            exact h4

/-- C4: for every store and every n not exceeding the undo stack depth,
calling undo n times followed by redo n times leaves the store's full
serialized state equal to the state immediately before the first undo. -/
theorem undo_redo_roundtrip (σ : Schema Data Inst) (s : Store Data Inst)
    (n : Nat) (h : n ≤ s.undoStack.length) :
    Store.toJSON σ (redoN σ n (undoN σ n s)) = Store.toJSON σ s := by
  have ha := undo_redo_aux σ n s h
  exact toJSON_eq σ _ _ ha.2.2.2 ha.1

/-! Mutation pipeline lemmas. -/

theorem instId_collUpdate (σ : Schema Data Inst) (d : Data) (x : Obj Inst) :
    σ.instId (if σ.instId x.val == σ.idSelector d then
      (⟨x.ref, σ.deserialize x.val d⟩ : Obj Inst) else x).val =
    σ.instId x.val := by
  by_cases hx : (σ.instId x.val == σ.idSelector d) = true
  · rw [if_pos hx]
    exact σ.instId_deserialize x.val d
  · rw [if_neg hx]

theorem find_map_pres (σ : Schema Data Inst) (coll : List (Obj Inst))
    (k : String) (f : Obj Inst → Obj Inst)
    (hf : ∀ x, σ.instId (f x).val = σ.instId x.val) :
    findById σ (coll.map f) k = (findById σ coll k).map f := by
  induction coll with
  | nil => rfl
  | cons x tl ih =>
      unfold findById at *
      simp only [List.map_cons, List.find?_cons]
      rw [hf x]
      cases hxk : σ.instId x.val == k with
      | false => simpa using ih
      | true => simp

theorem collCreate_ids_merge (σ : Schema Data Inst) (coll : List (Obj Inst))
    (n : Nat) (d : Data) (e : Obj Inst)
    (h : findById σ coll (σ.idSelector d) = some e) :
    (collCreate σ coll n d).1.map (fun x => σ.instId x.val) =
      coll.map (fun x => σ.instId x.val) := by
  simp only [collCreate, h, List.map_map]
  exact List.map_congr_left (fun x _ => instId_collUpdate σ d x)

theorem collCreate_ids_fresh (σ : Schema Data Inst) (coll : List (Obj Inst))
    (n : Nat) (d : Data)
    (h : findById σ coll (σ.idSelector d) = none) :
    (collCreate σ coll n d).1.map (fun x => σ.instId x.val) =
      coll.map (fun x => σ.instId x.val) ++ [σ.idSelector d] := by
  simp only [collCreate, h, List.map_append, List.map_cons, List.map_nil]
  rw [σ.instId_deserialize, σ.instId_blank]

theorem collCreate_nodup (σ : Schema Data Inst) (coll : List (Obj Inst))
    (n : Nat) (d : Data)
    (h : (coll.map (fun x => σ.instId x.val)).Nodup) :
    ((collCreate σ coll n d).1.map (fun x => σ.instId x.val)).Nodup := by
  cases hf : findById σ coll (σ.idSelector d) with
  | some e => rw [collCreate_ids_merge σ coll n d e hf]; exact h
  | none =>
      rw [collCreate_ids_fresh σ coll n d hf]
      rw [List.nodup_append]
      refine ⟨h, List.nodup_singleton _, ?_⟩
      intro a ha hb
      rw [List.mem_singleton] at hb
      subst hb
      unfold findById at hf
      rw [List.find?_eq_none] at hf
      rcases List.mem_map.mp ha with ⟨x, hx, hxa⟩
      exact hf x hx (by rw [hxa]; exact beq_self_eq_true _)

theorem collCreate_find_merge (σ : Schema Data Inst) (coll : List (Obj Inst))
    (n : Nat) (d : Data) (e : Obj Inst)
    (h : findById σ coll (σ.idSelector d) = some e) :
    findById σ (collCreate σ coll n d).1 (σ.idSelector d) =
      some ⟨e.ref, σ.deserialize e.val d⟩ := by
  simp only [collCreate, h]
  rw [find_map_pres σ coll (σ.idSelector d) _
    (fun x => instId_collUpdate σ d x), h]
  have he : (σ.instId e.val == σ.idSelector d) = true := by
    have := findById_id σ coll (σ.idSelector d) e h
    rw [this]
    exact beq_self_eq_true _
  simp only [Option.map_some']
  rw [if_pos he]

theorem collCreate_find_fresh (σ : Schema Data Inst) (coll : List (Obj Inst))
    (n : Nat) (d : Data)
    (h : findById σ coll (σ.idSelector d) = none) :
    findById σ (collCreate σ coll n d).1 (σ.idSelector d) =
      some ⟨n, σ.deserialize (σ.blank (σ.idSelector d)) d⟩ := by
  simp only [collCreate, h]
  unfold findById at h ⊢
  rw [List.find?_append, h]
  simp only [Option.none_or]
  apply List.find?_cons_of_pos
  rw [σ.instId_deserialize, σ.instId_blank]
  exact beq_self_eq_true _

theorem collCreate_find_other (σ : Schema Data Inst) (coll : List (Obj Inst))
    (n : Nat) (d : Data) (k : String) (hk : k ≠ σ.idSelector d) :
    findById σ (collCreate σ coll n d).1 k = findById σ coll k := by
  cases hf : findById σ coll (σ.idSelector d) with
  | some e =>
      simp only [collCreate, hf]
      rw [find_map_pres σ coll k _ (fun x => instId_collUpdate σ d x)]
      cases hfk : findById σ coll k with
      | none => rfl
      | some e' =>
          have he' : σ.instId e'.val = k := findById_id σ coll k e' hfk
          simp only [Option.map_some']
          rw [if_neg]
          rw [he']
          intro hc
          exact hk (eq_of_beq hc)
  | none =>
      simp only [collCreate, hf]
      unfold findById
      rw [List.find?_append]
      have hlast : List.find? (fun e => σ.instId e.val == k)
          [(⟨n, σ.deserialize (σ.blank (σ.idSelector d)) d⟩ : Obj Inst)] =
          none := by
        rw [List.find?_eq_none]
        intro x hx
        rw [List.mem_singleton] at hx
        subst hx
        simp only
        rw [σ.instId_deserialize, σ.instId_blank]
        intro hc
        exact hk (eq_of_beq hc).symm
      rw [hlast, Option.or_none]

theorem collCreate_serialize_self (σ : Schema Data Inst)
    (coll : List (Obj Inst)) (n : Nat) (d : Data) :
    ∃ e, findById σ (collCreate σ coll n d).1 (σ.idSelector d) = some e ∧
      σ.serialize e.val = d := by
  cases hf : findById σ coll (σ.idSelector d) with
  | some e0 =>
      refine ⟨⟨e0.ref, σ.deserialize e0.val d⟩,
        collCreate_find_merge σ coll n d e0 hf, ?_⟩
      exact σ.serialize_deserialize e0.val d
        (findById_id σ coll (σ.idSelector d) e0 hf)
  | none =>
      refine ⟨⟨n, σ.deserialize (σ.blank (σ.idSelector d)) d⟩,
        collCreate_find_fresh σ coll n d hf, ?_⟩
      exact σ.serialize_deserialize _ d (σ.instId_blank _)

theorem lastFor_none (σ : Schema Data Inst) (k : String) (ds : List Data)
    (h : lastFor σ k ds = none) : ∀ d ∈ ds, σ.idSelector d ≠ k := by
  unfold lastFor at h
  rw [List.getLast?_eq_none_iff, List.filter_eq_nil_iff] at h
  intro d hd hdk
  exact h d hd (by rw [hdk]; exact beq_self_eq_true _)

theorem createAll_find_other (σ : Schema Data Inst) (ds : List Data)
    (k : String) (hk : ∀ d ∈ ds, σ.idSelector d ≠ k) :
    ∀ (coll : List (Obj Inst)) (n : Nat),
      findById σ (createAll σ coll n ds).1 k = findById σ coll k := by
  induction ds with
  | nil => intro coll n; rfl
  | cons d rest ih =>
      intro coll n
      have hstep : createAll σ coll n (d :: rest) =
          createAll σ (collCreate σ coll n d).1
            (collCreate σ coll n d).2.1 rest := rfl
      rw [hstep, ih (fun x hx => hk x (List.mem_cons_of_mem _ hx)) _ _]
      exact collCreate_find_other σ coll n d k
        (Ne.symm (hk d (List.mem_cons_self _ _)))

theorem createAll_find_last (σ : Schema Data Inst) (ds : List Data) :
    ∀ (k : String) (d : Data), lastFor σ k ds = some d →
    ∀ (coll : List (Obj Inst)) (n : Nat),
      ∃ e, findById σ (createAll σ coll n ds).1 k = some e ∧
        σ.serialize e.val = d := by
  induction ds with
  | nil => intro k d h; exact absurd h (by simp [lastFor])
  | cons d0 rest ih =>
      intro k d h coll n
      unfold lastFor at h
      rw [List.filter_cons] at h
      have hstep : createAll σ coll n (d0 :: rest) =
          createAll σ (collCreate σ coll n d0).1
            (collCreate σ coll n d0).2.1 rest := rfl
      by_cases h0 : (σ.idSelector d0 == k) = true
      · rw [if_pos h0] at h
        cases hfr : rest.filter (fun x => σ.idSelector x == k) with
        | nil =>
            rw [hfr] at h
            rw [List.getLast?_singleton] at h
            have hd : d0 = d := Option.some.inj h
            subst hd
            have hrest : ∀ x ∈ rest, σ.idSelector x ≠ k :=
              lastFor_none σ k rest (by unfold lastFor; rw [hfr]; rfl)
            rw [hstep, createAll_find_other σ rest k hrest _ _]
            have hkd : k = σ.idSelector d0 := (eq_of_beq h0).symm
            subst hkd
            exact collCreate_serialize_self σ coll n d0
        | cons y ys =>
            rw [hfr] at h
            rw [List.getLast?_cons_cons] at h
            have hl : lastFor σ k rest = some d := by
              unfold lastFor
              rw [hfr]
              exact h
            exact ih k d hl _ _
      · rw [if_neg h0] at h
        have hl : lastFor σ k rest = some d := h
        exact ih k d hl _ _

theorem createAll_nodup (σ : Schema Data Inst) (ds : List Data) :
    ∀ (coll : List (Obj Inst)) (n : Nat),
      (coll.map (fun x => σ.instId x.val)).Nodup →
      ((createAll σ coll n ds).1.map (fun x => σ.instId x.val)).Nodup := by
  induction ds with
  | nil => intro coll n h; exact h
  | cons d rest ih =>
      intro coll n h
      exact ih _ _ (collCreate_nodup σ coll n d h)

/-- C1: for every sequence of create calls on a collection, at most one
live instance exists per id: ids stay duplicate-free; the id of the last
create call for k is resolved to exactly one instance whose serialized
state is that last call's data; an id never created resolves to nothing;
and a create whose id already has an instance constructs no new instance —
it merges into the existing instance (same ref), allocates no ref, keeps
the collection size, and returns that same instance. -/
theorem create_duplicate_id_merge (σ : Schema Data Inst) (ds : List Data)
    (k : String) :
    ((createAll σ [] 0 ds).1.map (fun x => σ.instId x.val)).Nodup ∧
    (∀ d, lastFor σ k ds = some d →
      ∃ e, findById σ (createAll σ [] 0 ds).1 k = some e ∧
        σ.serialize e.val = d) ∧
    (lastFor σ k ds = none → findById σ (createAll σ [] 0 ds).1 k = none) ∧
    (∀ (coll : List (Obj Inst)) (n : Nat) (d : Data) (e : Obj Inst),
      findById σ coll (σ.idSelector d) = some e →
      (collCreate σ coll n d).2.2 =
          (⟨e.ref, σ.deserialize e.val d⟩ : Obj Inst) ∧
      (collCreate σ coll n d).2.1 = n ∧
      (collCreate σ coll n d).1.length = coll.length) := by
  refine ⟨?_, ?_, ?_, ?_⟩
  · exact createAll_nodup σ ds [] 0 List.nodup_nil
  · intro d h
    exact createAll_find_last σ ds k d h [] 0
  · intro h
    rw [createAll_find_other σ ds k (lastFor_none σ k ds h) [] 0]
    rfl
  · intro coll n d e h
    refine ⟨?_, ?_, ?_⟩
    · simp only [collCreate, h]
    · simp only [collCreate, h]
    · simp only [collCreate, h, List.length_map]

/-- C6: for the model schemas defined in the sources, serialize is a left
inverse of deserialize and deserialize is idempotent: deserializing a
fresh instance from a serialized instance reproduces the serialized state,
deserializing an instance from its own serialization changes nothing, and
deserializing the same data twice equals deserializing it once. -/
theorem serialize_deserialize_contract :
    (∀ (m : UserModel),
      UserModel.toJSON (UserModel.new (UserModel.toJSON m)) =
        UserModel.toJSON m) ∧
    (∀ (m : UserModel), UserModel.loadJSON m (UserModel.toJSON m) = m) ∧
    (∀ (m : UserModel) (d : User),
      UserModel.loadJSON (UserModel.loadJSON m d) d =
        UserModel.loadJSON m d) ∧
    (∀ (t : TaskModel),
      TaskModel.toJSON (TaskModel.new (TaskModel.toJSON t)) =
        TaskModel.toJSON t) ∧
    (∀ (t : TaskModel), TaskModel.loadJSON t (TaskModel.toJSON t) = t) ∧
    (∀ (t : TaskModel) (d : Task),
      TaskModel.loadJSON (TaskModel.loadJSON t d) d =
        TaskModel.loadJSON t d) :=
  ⟨fun _ => rfl, fun _ => rfl, fun _ _ => rfl, fun _ => rfl, fun _ => rfl,
   fun _ _ => rfl⟩

/-- C8: every store operation addressed to a model-type name that is not
registered in the store's configuration fails at call time with
UnknownModelType, rather than succeeding or failing silently. -/
theorem unknown_model_type_raises (σ : Schema Data Inst)
    (s : Store Data Inst) (name : String) (d : Data) (id : String)
    (h : s.colls.lookup name = none) :
    Store.create σ s name d = .error .unknownModelType ∧
    Store.delete σ s name id = .error .unknownModelType ∧
    Store.getById σ s name id = .error .unknownModelType ∧
    Store.getAll s name = .error .unknownModelType := by
  refine ⟨?_, ?_, ?_, ?_⟩
  · simp [Store.create, h]
  · simp [Store.delete, h]
  · simp [Store.getById, h]
  · simp [Store.getAll, h]

/-- C9: undo on an empty undo stack and redo on an empty redo stack are
no-ops that raise nothing and change nothing; getById on a missing id
returns a not-found indicator instead of raising; delete of an absent id
is a no-op, not an error. -/
theorem boundary_noops (σ : Schema Data Inst) (s : Store Data Inst)
    (name : String) (coll : List (Obj Inst)) (id : String) :
    (s.undoStack = [] → Store.undo σ s = s) ∧
    (s.redoStack = [] → Store.redo σ s = s) ∧
    (s.colls.lookup name = some coll → findById σ coll id = none →
      Store.getById σ s name id = .ok none) ∧
    (s.colls.lookup name = some coll → findById σ coll id = none →
      Store.delete σ s name id = .ok s) := by
  refine ⟨?_, ?_, ?_, ?_⟩
  · intro h
    unfold Store.undo
    rw [h]
  · intro h
    unfold Store.redo
    rw [h]
  · intro h1 h2
    simp [Store.getById, h1, h2]
  · intro h1 h2
    simp [Store.delete, h1, h2]

/-! Lemmas on instance reuse during restore. -/

theorem lookup_mem {C : Type} :
    ∀ (l : List (String × C)) (k : String) (c : C),
      l.lookup k = some c → (k, c) ∈ l := by
  intro l
  induction l with
  | nil => intro k c h; cases h
  | cons p rest ih =>
      intro k c h
      cases p with
      | mk k0 c0 =>
          rw [List.lookup_cons] at h
          cases hk : (k == k0) with
          | true =>
              rw [hk] at h
              simp only at h
              have hkk : k = k0 := eq_of_beq hk
              have hcc : c0 = c := Option.some.inj h
              subst hkk
              subst hcc
              exact List.mem_cons_self _ _
          | false =>
              rw [hk] at h
              simp only at h
              exact List.mem_cons_of_mem _ (ih k c h)

theorem findById_of_nodup (σ : Schema Data Inst) (coll : List (Obj Inst))
    (e : Obj Inst)
    (hnodup : (coll.map (fun x => σ.instId x.val)).Nodup)
    (he : e ∈ coll) :
    findById σ coll (σ.instId e.val) = some e := by
  induction coll with
  | nil => cases he
  | cons x tl ih =>
      rw [List.map_cons, List.nodup_cons] at hnodup
      rcases List.mem_cons.mp he with h1 | h2
      · subst h1
        unfold findById
        rw [List.find?_cons]
        rw [show (σ.instId e.val == σ.instId e.val) = true from
          beq_self_eq_true _]
      · unfold findById
        rw [List.find?_cons]
        have hne : (σ.instId x.val == σ.instId e.val) = false := by
          rw [beq_eq_false_iff_ne]
          intro hc
          exact hnodup.1 (by rw [hc]; exact List.mem_map_of_mem _ h2)
        rw [hne]
        exact ih hnodup.2 h2

theorem restoreColl_mem_of_find (σ : Schema Data Inst)
    (old : List (Obj Inst)) (ds : List Data) (d : Data) (e : Obj Inst)
    (hd : d ∈ ds) (hf : findById σ old (σ.idSelector d) = some e) :
    ∀ n, (⟨e.ref, σ.deserialize e.val d⟩ : Obj Inst) ∈
      (restoreColl σ old ds n).1 := by
  induction ds with
  | nil => cases hd
  | cons d0 rest ih =>
      intro n
      rcases List.mem_cons.mp hd with h1 | h2
      · subst h1
        simp only [restoreColl, hf]
        exact List.mem_cons_self _ _
      · cases hh : findById σ old (σ.idSelector d0) with
        | some e0 =>
            simp only [restoreColl, hh]
            exact List.mem_cons_of_mem _ (ih h2 n)
        | none =>
            simp only [restoreColl, hh]
            exact List.mem_cons_of_mem _ (ih h2 (n + 1))

theorem restoreColls_lookup (σ : Schema Data Inst)
    (old : List (String × List (Obj Inst))) :
    ∀ (snap : Snap Data) (name : String) (ds : List Data),
      (snap.map Prod.fst).Nodup → (name, ds) ∈ snap →
      ∀ n, ∃ m, ((restoreColls σ old snap n).1).lookup name =
        some (restoreColl σ ((old.lookup name).getD []) ds m).1 := by
  intro snap
  induction snap with
  | nil => intro name ds _ hmem; cases hmem
  | cons p rest ih =>
      intro name ds hnodup hmem n
      cases p with
      | mk name0 ds0 =>
          rw [List.map_cons, List.nodup_cons] at hnodup
          rcases List.mem_cons.mp hmem with h1 | h2
          · have hn : name = name0 := congrArg Prod.fst h1
            have hds : ds = ds0 := congrArg Prod.snd h1
            subst hn
            subst hds
            refine ⟨n, ?_⟩
            simp only [restoreColls]
            rw [List.lookup_cons]
            rw [show (name == name) = true from beq_self_eq_true _]
          · have hne : (name == name0) = false := by
              rw [beq_eq_false_iff_ne]
              intro hc
              subst hc
              exact hnodup.1 (List.mem_map.mpr ⟨(name, ds), h2, rfl⟩)
            simp only [restoreColls]
            rw [List.lookup_cons, hne]
            simp only
            exact ih name ds hnodup.2 h2 _

/-- C7: for every undo restore and every id present both in the live
collection and in the target snapshot for the same model type, the restore
merges the snapshot data into the existing instance rather than replacing
it: the restored collection contains an instance with the same ref (the
same object identity) carrying the merged data, so consumer-held
references stay valid. -/
theorem restore_reuses_instances (σ : Schema Data Inst)
    (s : Store Data Inst) (u : Snap Data) (rest : List (Snap Data))
    (name : String) (coll : List (Obj Inst)) (ds : List Data)
    (e : Obj Inst) (d : Data)
    (hu : s.undoStack = u :: rest)
    (hnames : (u.map Prod.fst).Nodup)
    (hmem : (name, ds) ∈ u)
    (hcoll : s.colls.lookup name = some coll)
    (hnodup : (coll.map (fun x => σ.instId x.val)).Nodup)
    (he : e ∈ coll) (hd : d ∈ ds)
    (hid : σ.instId e.val = σ.idSelector d) :
    ∃ coll', (Store.undo σ s).colls.lookup name = some coll' ∧
      (⟨e.ref, σ.deserialize e.val d⟩ : Obj Inst) ∈ coll' := by
  have hcolls : (Store.undo σ s).colls =
      (restoreColls σ s.colls u s.nextRef).1 := by
    rw [undo_shape σ s u rest hu]
    rfl
  rcases restoreColls_lookup σ s.colls u name ds hnames hmem s.nextRef with
    ⟨m, hm⟩
  refine ⟨_, by rw [hcolls]; exact hm, ?_⟩
  have hfind : findById σ ((s.colls.lookup name).getD [])
      (σ.idSelector d) = some e := by
    rw [hcoll]
    show findById σ coll (σ.idSelector d) = some e
    rw [← hid]
    exact findById_of_nodup σ coll e hnodup he
  exact restoreColl_mem_of_find σ _ ds d e hd hfind m

/-! Lemmas for id stability across restore. -/

theorem restoreColl_next_ge (σ : Schema Data Inst) (old : List (Obj Inst)) :
    ∀ (ds : List Data) (n : Nat), n ≤ (restoreColl σ old ds n).2 := by
  intro ds
  induction ds with
  | nil => intro n; exact Nat.le_refl n
  | cons d rest ih =>
      intro n
      cases hf : findById σ old (σ.idSelector d) with
      | some e =>
          simp only [restoreColl, hf]
          exact ih n
      | none =>
          simp only [restoreColl, hf]
          exact Nat.le_trans (Nat.le_succ n) (ih (n + 1))

theorem restoreColl_mem (σ : Schema Data Inst) (old : List (Obj Inst)) :
    ∀ (ds : List Data) (n : Nat) (x : Obj Inst),
      x ∈ (restoreColl σ old ds n).1 →
      (∃ d ∈ ds, ∃ y, findById σ old (σ.idSelector d) = some y ∧
        x = ⟨y.ref, σ.deserialize y.val d⟩) ∨ n ≤ x.ref := by
  intro ds
  induction ds with
  | nil => intro n x hx; simp [restoreColl] at hx
  | cons d rest ih =>
      intro n x hx
      cases hf : findById σ old (σ.idSelector d) with
      | some e =>
          simp only [restoreColl, hf] at hx
          rcases List.mem_cons.mp hx with h1 | h2
          · exact Or.inl ⟨d, List.mem_cons_self _ _, e, hf, h1⟩
          · rcases ih n x h2 with h | h
            · rcases h with ⟨d', hd', y, hy, hxy⟩
              exact Or.inl ⟨d', List.mem_cons_of_mem _ hd', y, hy, hxy⟩
            · exact Or.inr h
      | none =>
          simp only [restoreColl, hf] at hx
          rcases List.mem_cons.mp hx with h1 | h2
          · refine Or.inr ?_
            rw [h1]
          · rcases ih (n + 1) x h2 with h | h
            · rcases h with ⟨d', hd', y, hy, hxy⟩
              exact Or.inl ⟨d', List.mem_cons_of_mem _ hd', y, hy, hxy⟩
            · exact Or.inr (Nat.le_trans (Nat.le_succ n) h)

theorem restoreColls_mem (σ : Schema Data Inst)
    (old : List (String × List (Obj Inst))) :
    ∀ (snap : Snap Data) (n : Nat) (q : String × List (Obj Inst)),
      q ∈ (restoreColls σ old snap n).1 →
      ∃ ds, (q.1, ds) ∈ snap ∧ ∃ m, n ≤ m ∧
        q.2 = (restoreColl σ ((old.lookup q.1).getD []) ds m).1 := by
  intro snap
  induction snap with
  | nil => intro n q hq; simp [restoreColls] at hq
  | cons p rest ih =>
      intro n q hq
      cases p with
      | mk name0 ds0 =>
          simp only [restoreColls] at hq
          rcases List.mem_cons.mp hq with h1 | h2
          · subst h1
            exact ⟨ds0, List.mem_cons_self _ _, n, Nat.le_refl n, rfl⟩
          · rcases ih _ q h2 with ⟨ds, hds, m, hm, hq2⟩
            refine ⟨ds, List.mem_cons_of_mem _ hds, m, ?_, hq2⟩
            exact Nat.le_trans
              (restoreColl_next_ge σ ((old.lookup name0).getD []) ds0 n) hm

theorem collCreate_ret_id (σ : Schema Data Inst) (coll : List (Obj Inst))
    (n : Nat) (d : Data) :
    σ.instId (collCreate σ coll n d).2.2.val = σ.idSelector d := by
  cases hf : findById σ coll (σ.idSelector d) with
  | some e =>
      simp only [collCreate, hf]
      rw [σ.instId_deserialize]
      exact findById_id σ coll _ e hf
  | none =>
      simp only [collCreate, hf]
      rw [σ.instId_deserialize, σ.instId_blank]

/-- C10: an instance's id is immutable for its whole lifetime. The
documented loadJSON operations never assign the id field; the instance
returned by create carries exactly idSelector of its data; a merge leaves
the id of every existing instance unchanged (it at most appends one new
id); and across any restore (the operation undo, redo and sandbox revert
perform), an instance that survives by ref keeps its id. -/
theorem id_immutable (σ : Schema Data Inst) :
    (∀ (m : UserModel) (d : User), (UserModel.loadJSON m d).id = m.id) ∧
    (∀ (t : TaskModel) (d : Task), (TaskModel.loadJSON t d).id = t.id) ∧
    (∀ (coll : List (Obj Inst)) (n : Nat) (d : Data),
      σ.instId (collCreate σ coll n d).2.2.val = σ.idSelector d) ∧
    (∀ (coll : List (Obj Inst)) (n : Nat) (d : Data),
      (collCreate σ coll n d).1.map (fun x => σ.instId x.val) =
        coll.map (fun x => σ.instId x.val) ∨
      (collCreate σ coll n d).1.map (fun x => σ.instId x.val) =
        coll.map (fun x => σ.instId x.val) ++ [σ.idSelector d]) ∧
    (∀ (s : Store Data Inst) (snap : Snap Data) (name : String)
      (coll coll' : List (Obj Inst)) (e e' : Obj Inst),
      refsBelow s → s.colls.lookup name = some coll → refsInj coll →
      (restore σ s snap).colls.lookup name = some coll' →
      e ∈ coll → e' ∈ coll' → e'.ref = e.ref →
      σ.instId e'.val = σ.instId e.val) := by
  refine ⟨fun _ _ => rfl, fun _ _ => rfl, collCreate_ret_id σ, ?_, ?_⟩
  · intro coll n d
    cases hf : findById σ coll (σ.idSelector d) with
    | some e => exact Or.inl (collCreate_ids_merge σ coll n d e hf)
    | none => exact Or.inr (collCreate_ids_fresh σ coll n d hf)
  · intro s snap name coll coll' e e' hrb hcoll hinj hcoll' he he' href
    have hq : (name, coll') ∈ (restoreColls σ s.colls snap s.nextRef).1 := by
      have hr : (restore σ s snap).colls =
          (restoreColls σ s.colls snap s.nextRef).1 := rfl
      rw [hr] at hcoll'
      exact lookup_mem _ name coll' hcoll'
    rcases restoreColls_mem σ s.colls snap s.nextRef (name, coll') hq with
      ⟨ds, hds, m, hnm, hc'⟩
    simp only at hc'
    rw [hc'] at he'
    have hold : ((s.colls.lookup name).getD []) = coll := by
      rw [hcoll]
      rfl
    rw [hold] at he'
    rcases restoreColl_mem σ coll ds m e' he' with h | h
    · rcases h with ⟨d', _, y, hy, hxy⟩
      have hy_mem : y ∈ coll := by
        unfold findById at hy
        exact List.mem_of_find?_eq_some hy
      have hyref : y.ref = e.ref := by
        rw [← href, hxy]
      have hye : y = e := hinj y hy_mem e he hyref
      subst hye
      rw [hxy]
      exact σ.instId_deserialize y.val d'
    · exfalso
      have h1 : e.ref < s.nextRef :=
        hrb (name, coll) (lookup_mem _ _ _ hcoll) e he
      have h2 : s.nextRef ≤ e'.ref := Nat.le_trans hnm h
      rw [href] at h2
      exact Nat.lt_irrefl _ (Nat.lt_of_lt_of_le h1 h2)

/-! Concrete witnesses. -/

/-- Witness for create_duplicate_id_merge at the store.mdx example: after
creating user-1 twice and user-3 once, user-1 resolves to one instance
whose serialized state is the second create's data. -/
theorem create_duplicate_id_merge_witness :
    ∃ e, findById userSchema
        (createAll userSchema [] 0
          [{ id := "user-1", name := "Austin" },
           { id := "user-1", name := "Maxime" },
           { id := "user-3", name := "Guillermo" }]).1 "user-1" =
        some e ∧
      userSchema.serialize e.val = { id := "user-1", name := "Maxime" } :=
  (create_duplicate_id_merge userSchema
    [{ id := "user-1", name := "Austin" },
     { id := "user-1", name := "Maxime" },
     { id := "user-3", name := "Guillermo" }] "user-1").2.1
    { id := "user-1", name := "Maxime" } (by decide)

/-- Witness for sandbox_default_revert: a sandboxed create with no commit
leaves store0 observably unchanged. -/
theorem sandbox_default_revert_witness :
    Store.toJSON userSchema
        (Store.sandbox userSchema store0
          [Step.create "UserModel" { id := "x", name := "y" }]).1 =
      Store.toJSON userSchema store0 ∧
    (Store.sandbox userSchema store0
        [Step.create "UserModel" { id := "x", name := "y" }]).1.notifyCount =
      store0.notifyCount :=
  sandbox_default_revert userSchema store0
    [Step.create "UserModel" { id := "x", name := "y" }] rfl (by decide)

/-- Witness for sandbox_error_rollback: a callback that raises is rolled
back silently and the error is re-raised. -/
theorem sandbox_error_rollback_witness :
    Store.toJSON userSchema
        (Store.sandbox userSchema store0 [Step.raiseErr]).1 =
      Store.toJSON userSchema store0 ∧
    (Store.sandbox userSchema store0 [Step.raiseErr]).1.notifyCount =
      store0.notifyCount ∧
    (Store.sandbox userSchema store0 [Step.raiseErr]).2 =
      SandboxResult.raised RunError.userRaise :=
  sandbox_error_rollback userSchema store0 [Step.raiseErr]
    RunError.userRaise rfl rfl

/-- Witness for undo_redo_roundtrip on the history demo store with two
undos and two redos. -/
theorem undo_redo_roundtrip_witness :
    Store.toJSON userSchema
        (redoN userSchema 2 (undoN userSchema 2 demoStore)) =
      Store.toJSON userSchema demoStore :=
  undo_redo_roundtrip userSchema demoStore 2 (by decide)

/-- Witness for sandbox_commit_persists: a sandboxed create followed by
commit persists and notifies exactly once. -/
theorem sandbox_commit_persists_witness :
    snapOf userSchema (Store.sandbox userSchema store0 wProg).1 =
      snapOf userSchema wT ∧
    (Store.sandbox userSchema store0 wProg).1.notifyCount =
      store0.notifyCount + 1 ∧
    (Store.sandbox userSchema store0 wProg).2 = SandboxResult.ok :=
  sandbox_commit_persists userSchema store0 wProg wT rfl rfl

/-- Witness for restore_reuses_instances: undoing wStore merges the
snapshot's user-1 data into the existing ref-0 instance. -/
theorem restore_reuses_instances_witness :
    ∃ coll', (Store.undo userSchema wStore).colls.lookup "UserModel" =
        some coll' ∧
      (⟨0, { id := "user-1", name := "B" }⟩ : Obj UserModel) ∈ coll' :=
  restore_reuses_instances userSchema wStore
    [("UserModel", [{ id := "user-1", name := "B" }])] [] "UserModel"
    wColl [{ id := "user-1", name := "B" }]
    ⟨0, { id := "user-1", name := "A" }⟩ { id := "user-1", name := "B" }
    rfl (by decide) (by decide) rfl (by decide) (by decide) (by decide) rfl

/-- Witness for unknown_model_type_raises: store0 registers only
UserModel, so ProjectModel operations raise. -/
theorem unknown_model_type_raises_witness :
    Store.create userSchema store0 "ProjectModel"
        { id := "p", name := "P" } = .error .unknownModelType ∧
    Store.delete userSchema store0 "ProjectModel" "p" =
      .error .unknownModelType ∧
    Store.getById userSchema store0 "ProjectModel" "p" =
      .error .unknownModelType ∧
    Store.getAll store0 "ProjectModel" = .error .unknownModelType :=
  unknown_model_type_raises userSchema store0 "ProjectModel"
    { id := "p", name := "P" } "p" rfl

/-- Witness for boundary_noops on the empty-stack, missing-id store0. -/
theorem boundary_noops_witness :
    Store.undo userSchema store0 = store0 ∧
    Store.redo userSchema store0 = store0 ∧
    Store.getById userSchema store0 "UserModel" "nope" = .ok none ∧
    Store.delete userSchema store0 "UserModel" "nope" = .ok store0 :=
  ⟨(boundary_noops userSchema store0 "UserModel" [] "nope").1 rfl,
   (boundary_noops userSchema store0 "UserModel" [] "nope").2.1 rfl,
   (boundary_noops userSchema store0 "UserModel" [] "nope").2.2.1 rfl rfl,
   (boundary_noops userSchema store0 "UserModel" [] "nope").2.2.2 rfl rfl⟩

/-- Witness for id_immutable: the ref-0 instance surviving wStore's
restore keeps its id. -/
theorem id_immutable_witness :
    userSchema.instId (⟨0, { id := "user-1", name := "B" }⟩ :
        Obj UserModel).val =
      userSchema.instId (⟨0, { id := "user-1", name := "A" }⟩ :
        Obj UserModel).val :=
  (id_immutable userSchema).2.2.2.2 wStore
    [("UserModel", [{ id := "user-1", name := "B" }])] "UserModel"
    wColl [⟨0, { id := "user-1", name := "B" }⟩]
    ⟨0, { id := "user-1", name := "A" }⟩
    ⟨0, { id := "user-1", name := "B" }⟩
    (by show ∀ p ∈ wStore.colls, ∀ e ∈ p.2, e.ref < wStore.nextRef; decide)
    rfl
    (by show ∀ a ∈ wColl, ∀ b ∈ wColl, a.ref = b.ref → a = b; decide)
    rfl (by decide) (by decide) rfl

end Xorm
